/-
Verification development for the cost-basis inventory core of the fino
repository: the FIFO inventory engine (src/utils/fifo_framework.py), the
weighted-average-cost engine (src/utils/wac_framework.py), the incremental
rebuild controller (src/analytics.py) and the NAV return-rate calculator
(src/return_rate_sqlite.py).

Modelling conventions:
* Python `Decimal` values are embedded as exact rationals (ℚ); every
  `quantize(Decimal("0.01"), ROUND_HALF_UP)` of the source appears as an
  explicit rounding function (`q2`, `q4`, `q6` below).
* Identifier-like values (security code, account name, currency code,
  security display name) are embedded as ℕ: the source only ever compares
  them for equality or groups by them.  Dates are ISO strings in the
  source, compared lexicographically, which for ISO dates is the
  chronological order; they are embedded as ℕ with its order.
  Transaction ids are ints in the database and are embedded as ℕ.
* Python dicts (insertion ordered) are embedded as association lists in
  insertion order; `list.remove(x)` (first structurally-equal element) is
  `eraseFirst`; in-place mutation of a list element is `replaceFirst`.
* Python's stable `sort`/`sort_values` is embedded as a stable insertion
  sort (`sortStable`): two stable sorts by the same key agree.
* The explicit `raise ValueError` sites of the source are embedded as
  `Except.error`; so is the one reachable `Decimal` division by zero of
  the WAC buy handler.  All other divisions happen, at their call sites,
  with non-zero denominators.
-/
import Mathlib

/-- Round-half-up of a rational to an integer, ties away from zero: the
behaviour of Python `Decimal` rounding mode `ROUND_HALF_UP`. -/
def rhu (x : ℚ) : ℤ := if 0 ≤ x then ⌊x + 1/2⌋ else -⌊-x + 1/2⌋

/-- Embeds `x.quantize(Decimal("0.01"), rounding=ROUND_HALF_UP)` of the source. -/
def q2 (x : ℚ) : ℚ := (rhu (x * 100) : ℚ) / 100

/-- Embeds `x.quantize(Decimal("0.0001"), rounding=ROUND_HALF_UP)` of the source. -/
def q4 (x : ℚ) : ℚ := (rhu (x * 10000) : ℚ) / 10000

/-- Embeds `x.quantize(Decimal("0.000001"), rounding=ROUND_HALF_UP)` of the source
(NAV_DECIMAL_PLACES = 6 in src/return_rate_sqlite.py). -/
def q6 (x : ℚ) : ℚ := (rhu (x * 1000000) : ℚ) / 1000000

/-- A rational that is a whole number of cents (the image of `q2`). -/
def isCents (x : ℚ) : Prop := ∃ n : ℤ, x = n / 100

/-- Association-list lookup, first binding wins: a Python dict read. -/
def assocGet {κ β : Type} [DecidableEq κ] (k : κ) : List (κ × β) → Option β
  | [] => none
  | p :: rest => if p.1 = k then some p.2 else assocGet k rest

/-- Association-list write: overwrite the first binding of `k` in place, or
append a new binding at the end — Python dict assignment, which keeps
insertion order. -/
def assocSet {κ β : Type} [DecidableEq κ] (k : κ) (v : β) : List (κ × β) → List (κ × β)
  | [] => [(k, v)]
  | p :: rest => if p.1 = k then (k, v) :: rest else p :: assocSet k v rest

/-- Association-list delete (Python `del d[k]`). -/
def assocDrop {κ β : Type} [DecidableEq κ] (k : κ) : List (κ × β) → List (κ × β)
  | [] => []
  | p :: rest => if p.1 = k then rest else p :: assocDrop k rest

/-- Embeds `if key not in d: d[key] = v0` of the source. -/
def ensureKey {κ β : Type} [DecidableEq κ] (k : κ) (v0 : β) (l : List (κ × β)) :
    List (κ × β) :=
  match assocGet k l with
  | some _ => l
  | none => l ++ [(k, v0)]

/-- Replace the first element equal to `a` by `b`: in-place mutation of a
Python list element reached through iteration. -/
def replaceFirst {α : Type} [DecidableEq α] (a b : α) : List α → List α
  | [] => []
  | x :: xs => if x = a then b :: xs else x :: replaceFirst a b xs

/-- Remove the first element equal to `a`: Python `list.remove(a)` (which
compares dataclasses structurally). -/
def eraseFirst {α : Type} [DecidableEq α] (a : α) : List α → List α
  | [] => []
  | x :: xs => if x = a then xs else x :: eraseFirst a xs

/-- Insert `x` after every already-placed element `y` with `le y x`: the
insertion step of a stable sort. -/
def insertSorted {α : Type} (le : α → α → Bool) (x : α) : List α → List α
  | [] => [x]
  | y :: ys => if le y x then y :: insertSorted le x ys else x :: y :: ys

/-- Stable insertion sort: agrees with Python's stable `sort`/`sort_values`
for the same key. -/
def sortStable {α : Type} (le : α → α → Bool) (l : List α) : List α :=
  l.foldl (fun acc x => insertSorted le x acc) []

/-! ## Transaction rows

A row of the transaction feed as the engines receive it
(`_process_single_transaction` of both frameworks).  `fields = none` stands
for a malformed row: one of the required columns is missing or fails
`Decimal` parsing, so that the `try` block of `_process_single_transaction`
raises.  The grouping/sorting columns (ledger id, code, date, id) are kept
outside `fields` because `add_stock_from_df` reads them before the parse. -/

structure TxFields where
  name : ℕ
  quantity : ℚ
  bookValue : ℚ
  account : ℕ
  currency : ℕ
  exchangeRate : ℚ
deriving DecidableEq

structure RawRow where
  ledgerId : ℕ
  code : ℕ
  date : ℕ
  id : ℕ
  fields : Option TxFields
deriving DecidableEq

/-- The error of `raise ValueError(f"交易记录数据格式错误: {e}")`. -/
def parseErrorMsg : String := "transaction row failed validation"

/-- The error of `raise ValueError("移除数量必须大于0")` in `remove_stock`. -/
def removeQtyErrorMsg : String := "removal quantity must be positive"

/-! ## FIFO inventory engine (src/utils/fifo_framework.py) -/

/-- Embeds `InventoryRecord` of fifo_framework.py. -/
structure InventoryRecord where
  batchId : ℕ
  date : ℕ
  code : ℕ
  name : ℕ
  quantity : ℚ
  bookValue : ℚ
  account : ℕ
  ledgerId : ℕ
  currency : ℕ
  exchangeRate : ℚ
deriving DecidableEq

/-- Embeds `PLDetail` of fifo_framework.py. -/
structure PLDetail where
  date : ℕ
  transactionId : ℕ
  inventoryId : ℕ
  code : ℕ
  name : ℕ
  originalQuantity : ℚ
  originalBookValue : ℚ
  soldQuantity : ℚ
  remainingQuantity : ℚ
  remainingBookValue : ℚ
  income : ℚ
  cost : ℚ
  profit : ℚ
  currency : ℕ
  account : ℕ
  exchangeRate : ℚ
  costExchangeRate : ℚ
deriving DecidableEq

/-- One entry of `removed_records` in `remove_stock`: the dict
`{"编号", "数量", "账面价值", "成本汇率"}`. -/
structure Consumed where
  batchId : ℕ
  quantity : ℚ
  bookValue : ℚ
  exchangeRate : ℚ
deriving DecidableEq

/-- The inventory map `Dict[Tuple[int, str], List[InventoryRecord]]`. -/
abbrev InvMap := List ((ℕ × ℕ) × List InventoryRecord)

/-- Embeds `FIFOInventory` state: `self.inventory` and `self.realized_pl_details`.
(`batch_counter`, `has_currency_column` and `enable_exchange_rate` only
affect parsing and DataFrame output, not the accounting state.) -/
structure FIFOInventory where
  inventory : InvMap
  realized : List PLDetail
deriving DecidableEq

/-- The records of one `(ledger_id, code)` key, `[]` when absent. -/
def getRecs (inv : InvMap) (k : ℕ × ℕ) : List InventoryRecord :=
  (assocGet k inv).getD []

/-- Context of one sell carried through `_calculate_realized_pl` and
`_create_short_position` (the scalar arguments the source passes along). -/
structure SellCtx where
  ledgerId : ℕ
  code : ℕ
  sellDate : ℕ
  name : ℕ
  account : ℕ
  currency : ℕ
  sellId : ℕ
  exchangeRate : ℚ
deriving DecidableEq

/-- Context of one buy carried through `cover_short_position`. -/
structure BuyCtx where
  ledgerId : ℕ
  code : ℕ
  buyDate : ℕ
  name : ℕ
  account : ℕ
  currency : ℕ
  buyId : ℕ
  exchangeRate : ℚ
deriving DecidableEq

/-- Embeds `_get_original_batch_info`: scan every batch of every key, in dict
insertion order, for the first one whose `batch_id` matches; the original
quantity/book value is the remaining batch plus what was sold, or just what
was sold when the batch was fully removed. -/
def getOriginalBatchInfo (inv : InvMap) (batchId : ℕ) (soldQ soldBV : ℚ) : ℚ × ℚ :=
  match (inv.map Prod.snd).flatten.find? (fun b => b.batchId == batchId) with
  | some b => (b.quantity + soldQ, b.bookValue + soldBV)
  | none => (soldQ, soldBV)

/-- One `PLDetail` of `_calculate_realized_pl` for a consumed record `c`
whose allocated income is `income`. -/
def mkPlDetail (inv : InvMap) (ctx : SellCtx) (c : Consumed) (income : ℚ) : PLDetail :=
  let origInfo := getOriginalBatchInfo inv c.batchId c.quantity c.bookValue
  let origQ := origInfo.1
  let origBV := origInfo.2
  let costPerUnit := q2 (origBV / origQ)
  let _cost := q2 (c.quantity * costPerUnit)
  { date := ctx.sellDate, transactionId := ctx.sellId, inventoryId := c.batchId,
    code := ctx.code, name := ctx.name,
    originalQuantity := origQ, originalBookValue := |origBV|,
    soldQuantity := c.quantity, remainingQuantity := origQ - c.quantity,
    remainingBookValue := |origBV - c.bookValue|,
    income := income, cost := |c.bookValue|,
    profit := q2 (income - |c.bookValue|),
    currency := ctx.currency, account := ctx.account,
    exchangeRate := ctx.exchangeRate, costExchangeRate := c.exchangeRate }

/-- The allocation loop of `_calculate_realized_pl`: every record but the
last gets its quantity-proportional share of `totalSellBV` rounded to
cents; the last gets `totalSellBV` minus the already-allocated income
(quantized again, as the source does). -/
def plLoop (inv : InvMap) (ctx : SellCtx) (totalSellQ totalSellBV allocated : ℚ) :
    List Consumed → List PLDetail
  | [] => []
  | [c] => [mkPlDetail inv ctx c (q2 (totalSellBV - allocated))]
  | c :: rest =>
      let inc := q2 (c.quantity / totalSellQ * totalSellBV)
      mkPlDetail inv ctx c inc :: plLoop inv ctx totalSellQ totalSellBV (allocated + inc) rest

/-- Embeds `_calculate_realized_pl` (fifo_framework.py lines 451-531).
`originalQuantity` is the total quantity of the sale. -/
def calculateRealizedPl (inv : InvMap) (ctx : SellCtx) (removed : List Consumed)
    (sellBookValue originalQuantity : ℚ) : List PLDetail :=
  let normal := removed.filter (fun c => decide (0 < c.quantity))
  if normal.isEmpty then []
  else
    let totalSellQ := (normal.map Consumed.quantity).sum
    let normalRatio := totalSellQ / originalQuantity
    let totalSellBV := q2 (sellBookValue * normalRatio)
    plLoop inv ctx totalSellQ totalSellBV 0 normal

/-- Embeds `_process_inventory_removal`: walk the positive batches of the account
oldest-first, removing fully-consumed batches from the key's list and
shrinking a partially-consumed one in place; returns the new inventory, the
`removed_records` entries, and the unprocessed remainder. -/
def removalLoop (k : ℕ × ℕ) (inv : InvMap) :
    List InventoryRecord → ℚ → InvMap × List Consumed × ℚ
  | [], remaining => (inv, [], remaining)
  | b :: rest, remaining =>
      if remaining ≤ 0 then (inv, [], remaining)
      else if b.quantity ≤ remaining then
        let c : Consumed := ⟨b.batchId, b.quantity, b.bookValue, b.exchangeRate⟩
        let inv2 := assocSet k (eraseFirst b (getRecs inv k)) inv
        let rec2 := removalLoop k inv2 rest (remaining - b.quantity)
        (rec2.1, c :: rec2.2.1, rec2.2.2)
      else
        let alloc := q2 (remaining / b.quantity * b.bookValue)
        let c : Consumed := ⟨b.batchId, remaining, alloc, b.exchangeRate⟩
        let b2 := { b with quantity := b.quantity - remaining,
                           bookValue := b.bookValue - alloc }
        (assocSet k (replaceFirst b b2 (getRecs inv k)) inv, [c], 0)

/-- Embeds `_create_short_position` (fifo_framework.py lines 404-449): the
uncovered remainder becomes a negative-quantity record whose (negated) book
value is the remainder's share of the sale proceeds; the record is also
appended to `removed_records`. -/
def createShortPosition (ctx : SellCtx) (inv : InvMap) (quantity sellBookValue
    originalQuantity : ℚ) (removed : List Consumed) : InvMap × List Consumed :=
  let k := (ctx.ledgerId, ctx.code)
  let alloc := q2 (quantity / originalQuantity * sellBookValue)
  let shortPos : InventoryRecord :=
    { batchId := ctx.sellId, date := ctx.sellDate, code := ctx.code, name := ctx.name,
      quantity := -quantity, bookValue := -alloc, account := ctx.account,
      ledgerId := ctx.ledgerId, currency := ctx.currency,
      exchangeRate := ctx.exchangeRate }
  let inv2 := ensureKey k [] inv
  (assocSet k (getRecs inv2 k ++ [shortPos]) inv2,
   removed ++ [⟨ctx.sellId, -quantity, -alloc, ctx.exchangeRate⟩])

/-- Embeds `remove_stock` (fifo_framework.py lines 261-343) for a sell that always
carries a book value, as `_handle_sell_transaction` calls it.  The guard
`quantity <= 0` is the source's `raise ValueError`. -/
def removeStock (s : FIFOInventory) (ctx : SellCtx) (quantity sellBookValue : ℚ) :
    Except String (List PLDetail × FIFOInventory) :=
  let k := (ctx.ledgerId, ctx.code)
  if quantity ≤ 0 then .error removeQtyErrorMsg
  else
    let inv := ensureKey k [] s.inventory
    let accountBatches := (getRecs inv k).filter
      (fun b => b.account == ctx.account && decide (0 < b.quantity)
        && b.currency == ctx.currency)
    let rem := removalLoop k inv accountBatches quantity
    let afterShort :=
      if 0 < rem.2.2 then
        createShortPosition ctx rem.1 rem.2.2 sellBookValue quantity rem.2.1
      else (rem.1, rem.2.1)
    let pls :=
      if afterShort.2.isEmpty then []
      else calculateRealizedPl afterShort.1 ctx afterShort.2 sellBookValue quantity
    .ok (pls, { s with inventory := afterShort.1 })

/-- Embeds `_cover_full_short_position` (fifo_framework.py lines 678-732): removes
the short from the key's list; the emitted event's `remaining_quantity` is 0. -/
def coverFullShort (ctx : BuyCtx) (inv : InvMap) (sp : InventoryRecord)
    (coverQuantity buyBookValue totalBuyQuantity : ℚ) : PLDetail × InvMap :=
  let k := (ctx.ledgerId, ctx.code)
  let shortIncome := |sp.bookValue|
  let coverCostPerUnit := q2 (buyBookValue / totalBuyQuantity)
  let coverCost := q2 (coverQuantity * coverCostPerUnit)
  let profit := q2 (shortIncome - coverCost)
  let pl : PLDetail :=
    { date := ctx.buyDate, transactionId := ctx.buyId, inventoryId := sp.batchId,
      code := ctx.code, name := ctx.name,
      originalQuantity := sp.quantity, originalBookValue := |sp.bookValue|,
      soldQuantity := -coverQuantity, remainingQuantity := 0,
      remainingBookValue := 0, income := |shortIncome|, cost := coverCost,
      profit := profit, currency := ctx.currency, account := ctx.account,
      exchangeRate := ctx.exchangeRate, costExchangeRate := sp.exchangeRate }
  (pl, assocSet k (eraseFirst sp (getRecs inv k)) inv)

/-- Embeds `_cover_partial_short_position` (fifo_framework.py lines 734-801):
shrinks the short in place; the emitted event's `remaining_quantity` is the
(negative) remaining short quantity. -/
def coverPartialShort (ctx : BuyCtx) (inv : InvMap) (sp : InventoryRecord)
    (coverQuantity buyBookValue totalBuyQuantity : ℚ) : PLDetail × InvMap :=
  let k := (ctx.ledgerId, ctx.code)
  let shortQuantity := |sp.quantity|
  let shortBookValue := |sp.bookValue|
  let shortIncome := q2 (shortBookValue * coverQuantity / shortQuantity)
  let coverCostPerUnit := q2 (buyBookValue / totalBuyQuantity)
  let coverCost := q2 (coverQuantity * coverCostPerUnit)
  let profit := q2 (shortIncome - coverCost)
  let remainingShortQuantity := shortQuantity - coverQuantity
  let remainingShortBookValue := q2 (shortBookValue - shortIncome)
  let sp2 := { sp with quantity := -remainingShortQuantity,
                       bookValue := -remainingShortBookValue }
  let pl : PLDetail :=
    { date := ctx.buyDate, transactionId := ctx.buyId, inventoryId := sp.batchId,
      code := ctx.code, name := ctx.name,
      originalQuantity := -shortQuantity, originalBookValue := shortBookValue,
      soldQuantity := -coverQuantity, remainingQuantity := -remainingShortQuantity,
      remainingBookValue := q2 remainingShortBookValue,
      income := |shortIncome|, cost := coverCost, profit := profit,
      currency := ctx.currency, account := ctx.account,
      exchangeRate := ctx.exchangeRate, costExchangeRate := sp.exchangeRate }
  (pl, assocSet k (replaceFirst sp sp2 (getRecs inv k)) inv)

/-- The loop of `cover_short_position` over the account's shorts
(oldest-first).  After each cover the running remainder is taken from the
event's `remaining_quantity` field, exactly as the source does. -/
def coverLoop (ctx : BuyCtx) (buyBookValue totalBuyQuantity : ℚ) (inv : InvMap)
    (remaining : ℚ) : List InventoryRecord → List PLDetail × ℚ × InvMap
  | [] => ([], remaining, inv)
  | sp :: rest =>
      if remaining ≤ 0 then ([], remaining, inv)
      else
        let shortQuantity := |sp.quantity|
        if shortQuantity ≤ remaining then
          let step := coverFullShort ctx inv sp shortQuantity buyBookValue totalBuyQuantity
          let rec2 := coverLoop ctx buyBookValue totalBuyQuantity step.2
            step.1.remainingQuantity rest
          (step.1 :: rec2.1, rec2.2.1, rec2.2.2)
        else
          let step := coverPartialShort ctx inv sp remaining buyBookValue totalBuyQuantity
          let rec2 := coverLoop ctx buyBookValue totalBuyQuantity step.2
            step.1.remainingQuantity rest
          (step.1 :: rec2.1, rec2.2.1, rec2.2.2)

/-- Embeds `cover_short_position` (fifo_framework.py lines 545-612). -/
def coverShortPosition (ctx : BuyCtx) (inv : InvMap) (quantity buyBookValue : ℚ) :
    List PLDetail × ℚ × InvMap :=
  let k := (ctx.ledgerId, ctx.code)
  match assocGet k inv with
  | none => ([], quantity, inv)
  | some _ =>
      let shortPositions := sortStable (fun a b => decide (a.date ≤ b.date))
        ((getRecs inv k).filter
          (fun b => b.account == ctx.account && decide (b.quantity < 0)))
      coverLoop ctx buyBookValue quantity inv quantity shortPositions

/-- Embeds `_handle_buy_transaction` (fifo_framework.py lines 173-226): cover
shorts first; a positive remainder becomes a new batch carrying its
proportional share of the buy's book value, and the key's list is re-sorted
by date. -/
def handleBuyTransaction (s : FIFOInventory) (ctx : BuyCtx)
    (quantity bookValue : ℚ) : FIFOInventory :=
  let k := (ctx.ledgerId, ctx.code)
  let inv := ensureKey k [] s.inventory
  let covered := coverShortPosition ctx inv quantity bookValue
  let s2 : FIFOInventory :=
    { inventory := covered.2.2, realized := s.realized ++ covered.1 }
  let remaining := covered.2.1
  if 0 < remaining then
    let allocatedBookValue := q2 (remaining / quantity * bookValue)
    let record : InventoryRecord :=
      { batchId := ctx.buyId, date := ctx.buyDate, code := ctx.code, name := ctx.name,
        quantity := remaining, bookValue := allocatedBookValue,
        account := ctx.account, ledgerId := ctx.ledgerId, currency := ctx.currency,
        exchangeRate := ctx.exchangeRate }
    let recs := sortStable (fun a b => decide (a.date ≤ b.date))
      (getRecs s2.inventory k ++ [record])
    { s2 with inventory := assocSet k recs s2.inventory }
  else s2

/-- Embeds `_handle_sell_transaction` (fifo_framework.py lines 228-259). -/
def handleSellTransaction (s : FIFOInventory) (ctx : SellCtx)
    (quantity bookValue : ℚ) : Except String FIFOInventory :=
  let k := (ctx.ledgerId, ctx.code)
  let s2 : FIFOInventory := { s with inventory := ensureKey k [] s.inventory }
  (removeStock s2 ctx quantity bookValue).map
    (fun r => { r.2 with realized := r.2.realized ++ r.1 })

/-- Embeds `_process_single_transaction` (fifo_framework.py lines 108-171): parse,
skip a row whose `(id, account)` pair still has a record in the key's list,
then dispatch on the sign of the quantity (a zero-quantity row is only
logged). -/
def FIFOInventory.processSingleTransaction (s : FIFOInventory) (row : RawRow) :
    Except String FIFOInventory :=
  match row.fields with
  | none => .error parseErrorMsg
  | some f =>
      let k := (row.ledgerId, row.code)
      if (getRecs s.inventory k).any
          (fun r => r.batchId == row.id && r.account == f.account) then
        .ok s
      else if 0 < f.quantity then
        .ok (handleBuyTransaction s
          ⟨row.ledgerId, row.code, row.date, f.name, f.account, f.currency, row.id,
           f.exchangeRate⟩ f.quantity |f.bookValue|)
      else if f.quantity < 0 then
        handleSellTransaction s
          ⟨row.ledgerId, row.code, row.date, f.name, f.account, f.currency, row.id,
           f.exchangeRate⟩ (-f.quantity) |f.bookValue|
      else .ok s

/-- The row loop of `add_stock_from_df` over one `(ledger_id, code)` group. -/
def FIFOInventory.processRows : FIFOInventory → List RawRow → Except String FIFOInventory
  | s, [] => .ok s
  | s, row :: rest => (s.processSingleTransaction row).bind (·.processRows rest)

/-- The group keys of `df.groupby(["账本ID", "代码"])`, in pandas' sorted
key order. -/
def groupKeys (rows : List RawRow) : List (ℕ × ℕ) :=
  sortStable (fun a b => decide (a.1 < b.1 || (a.1 == b.1 && a.2 ≤ b.2)))
    ((rows.map (fun r => (r.ledgerId, r.code))).dedup)

/-- The group loop of `add_stock_from_df`: ensure the key, sort the group's
rows by date (stable) and process them in order. -/
def FIFOInventory.processGroups (rows : List RawRow) :
    FIFOInventory → List (ℕ × ℕ) → Except String FIFOInventory
  | s, [] => .ok s
  | s, k :: ks =>
      let s2 : FIFOInventory := { s with inventory := ensureKey k [] s.inventory }
      let group := sortStable (fun a b => decide (a.date ≤ b.date))
        (rows.filter (fun r => r.ledgerId == k.1 && r.code == k.2))
      (s2.processRows group).bind (·.processGroups rows ks)

/-- Embeds `add_stock_from_df` (fifo_framework.py lines 73-106): group by
`(ledger_id, code)`, sort each group by date, process row by row.  A parse
failure inside `_process_single_transaction` propagates out: nothing
catches it. -/
def FIFOInventory.addStockFromDf (s : FIFOInventory) (rows : List RawRow) :
    Except String FIFOInventory :=
  s.processGroups rows (groupKeys rows)

/-- Embeds `get_total_quantity` (fifo_framework.py lines 880-888). -/
def FIFOInventory.getTotalQuantity (s : FIFOInventory) (ledgerId code : ℕ)
    (account : Option ℕ) : ℚ :=
  let batches := getRecs s.inventory (ledgerId, code)
  let batches : List InventoryRecord := match account with
    | some a => batches.filter (fun b => b.account == a)
    | none => batches
  (batches.map InventoryRecord.quantity).sum

/-! ## Weighted-average-cost engine (src/utils/wac_framework.py) -/

/-- Embeds `WACInventoryRecord` of wac_framework.py. -/
structure WACInventoryRecord where
  code : ℕ
  name : ℕ
  quantity : ℚ
  totalCost : ℚ
  avgCost : ℚ
  account : ℕ
  ledgerId : ℕ
  currency : ℕ
  exchangeRate : ℚ
deriving DecidableEq

/-- Embeds `WACPLDetail` of wac_framework.py. -/
structure WACPLDetail where
  date : ℕ
  transactionId : ℕ
  code : ℕ
  name : ℕ
  soldQuantity : ℚ
  avgCost : ℚ
  sellPrice : ℚ
  income : ℚ
  cost : ℚ
  profit : ℚ
  currency : ℕ
  account : ℕ
  ledgerId : ℕ
  exchangeRate : ℚ
deriving DecidableEq

/-- The WAC inventory map
`Dict[Tuple[int, str], Dict[str, WACInventoryRecord]]`. -/
abbrev WacMap := List ((ℕ × ℕ) × List (ℕ × WACInventoryRecord))

/-- Embeds `WACInventory` state.  `enable_exchange_rate` changes the stored
acquisition rate of a covering buy, so it is part of the state here. -/
structure WACInventory where
  inventory : WacMap
  realized : List WACPLDetail
  enableExchangeRate : Bool
deriving DecidableEq

/-- The account map of one `(ledger_id, code)` key, `[]` when absent. -/
def getAccts (inv : WacMap) (k : ℕ × ℕ) : List (ℕ × WACInventoryRecord) :=
  (assocGet k inv).getD []

/-- Embeds `_handle_buy_transaction` (wac_framework.py lines 157-211): a fresh
account gets a new record; an existing one (long or short alike) is blended
in place — no realized-P&L event is ever produced by a buy.  When the
covering buy leaves a quantity of exactly zero the source's average-cost
division raises; that is the `.error` branch. -/
def wacHandleBuy (s : WACInventory) (ledgerId code : ℕ) (quantity bookValue : ℚ)
    (_date name account currency : ℕ) (_transactionId : ℕ) (exchangeRate : ℚ) :
    Except String WACInventory :=
  let k := (ledgerId, code)
  let inv := ensureKey k [] s.inventory
  let accts := getAccts inv k
  match assocGet account accts with
  | none =>
      let avgCost := q4 (bookValue / quantity)
      let record : WACInventoryRecord :=
        ⟨code, name, quantity, bookValue, avgCost, account, ledgerId, currency,
         exchangeRate⟩
      .ok { s with inventory := assocSet k (accts ++ [(account, record)]) inv }
  | some r =>
      let newQuantity := r.quantity + quantity
      let newTotalCost := r.totalCost + bookValue
      if newQuantity = 0 then .error "decimal division by zero"
      else
        let newAvgCost := q4 (newTotalCost / newQuantity)
        let r2 : WACInventoryRecord :=
          { r with quantity := newQuantity, totalCost := newTotalCost,
                   avgCost := newAvgCost }
        let r3 :=
          if s.enableExchangeRate then
            let oldWeight := (r2.quantity - quantity) / newQuantity
            let newWeight := quantity / newQuantity
            let blended := q4 (r.exchangeRate * oldWeight + exchangeRate * newWeight)
            { r2 with exchangeRate := blended }
          else r2
        .ok { s with inventory := assocSet k (assocSet account r3 accts) inv }

/-- Embeds `_handle_sell_transaction` (wac_framework.py lines 213-300): a sell
against a missing balance opens a short priced at the sale; otherwise one
realized-P&L event is appended, cost-of-goods-sold is the pre-mutation
average cost, and a residual quantity below 0.0001 in absolute value deletes
the balance (and the key when it empties). -/
def wacHandleSell (s : WACInventory) (ledgerId code : ℕ) (quantity bookValue : ℚ)
    (date name account currency : ℕ) (transactionId : ℕ) (exchangeRate : ℚ) :
    WACInventory :=
  let k := (ledgerId, code)
  let accts := getAccts s.inventory k
  match assocGet account accts with
  | none =>
      let inv := ensureKey k [] s.inventory
      let sellPrice := q4 (bookValue / quantity)
      let record : WACInventoryRecord :=
        ⟨code, name, -quantity, -bookValue, sellPrice, account, ledgerId, currency,
         exchangeRate⟩
      { s with inventory := assocSet k (getAccts inv k ++ [(account, record)]) inv }
  | some r =>
      let sellCost := q2 (quantity * r.avgCost)
      let profit := q2 (bookValue - sellCost)
      let sellPrice := q4 (bookValue / quantity)
      let pl : WACPLDetail :=
        ⟨date, transactionId, code, name, quantity, r.avgCost, sellPrice, bookValue,
         sellCost, profit, currency, account, ledgerId, exchangeRate⟩
      let newQuantity := r.quantity - quantity
      let newTotalCost := q2 (newQuantity * r.avgCost)
      let inv2 :=
        if |newQuantity| < 1/10000 then
          let accts2 := assocDrop account accts
          if accts2.isEmpty then assocDrop k s.inventory
          else assocSet k accts2 s.inventory
        else
          assocSet k
            (assocSet account { r with quantity := newQuantity,
                                       totalCost := newTotalCost } accts)
            s.inventory
      { s with inventory := inv2, realized := s.realized ++ [pl] }

/-- Embeds `_process_single_transaction` (wac_framework.py lines 102-155). -/
def WACInventory.processSingleTransaction (s : WACInventory) (row : RawRow) :
    Except String WACInventory :=
  match row.fields with
  | none => .error parseErrorMsg
  | some f =>
      if 0 < f.quantity then
        wacHandleBuy s row.ledgerId row.code f.quantity |f.bookValue| row.date
          f.name f.account f.currency row.id f.exchangeRate
      else if f.quantity < 0 then
        .ok (wacHandleSell s row.ledgerId row.code (-f.quantity) |f.bookValue| row.date
          f.name f.account f.currency row.id f.exchangeRate)
      else .ok s

/-- The row loop of the WAC `add_stock_from_df`. -/
def WACInventory.processRows : WACInventory → List RawRow → Except String WACInventory
  | s, [] => .ok s
  | s, row :: rest => (s.processSingleTransaction row).bind (·.processRows rest)

/-- Embeds `add_stock_from_df` (wac_framework.py lines 75-100): sort the whole
frame by `(日期, 编号)` and process row by row. -/
def WACInventory.addStockFromDf (s : WACInventory) (rows : List RawRow) :
    Except String WACInventory :=
  s.processRows (sortStable
    (fun a b => decide (a.date < b.date || (a.date == b.date && a.id ≤ b.id))) rows)

/-- Embeds `get_total_quantity` (wac_framework.py lines 388-399): with an account
given, the loop returns on the first code-matching key whether or not the
account is present there; without one it sums every code-matching key. -/
def WACInventory.getTotalQuantity (s : WACInventory) (code : ℕ)
    (account : Option ℕ) : ℚ :=
  wacTotalLoop s.inventory code account
where
  wacTotalLoop : WacMap → ℕ → Option ℕ → ℚ
    | [], _, _ => 0
    | (k, accts) :: rest, code, account =>
        if k.2 = code then
          match account with
          | some a => ((assocGet a accts).map WACInventoryRecord.quantity).getD 0
          | none => ((accts.map (fun p => p.2.quantity)).sum)
              + wacTotalLoop rest code account
        else wacTotalLoop rest code account

/-! ## Incremental rebuild controller (src/analytics.py)

`Analytics` holds both engines and the per-ledger checkpoint map
`_last_processed_ids` (kept in lock-step with the `inventory_state` table;
the table fallback of `update_position` lines 330-339 is modelled by the
map already holding the persisted value).  The transaction store is passed
in as the list `db` of rows already shaped by the rebuild query's CASE
expressions (signed quantity, signed amount).  `isFifo` is the ledger's
`cost_method == "FIFO"`; the position-table projection
(`_sync_position_from_inventory`) is outside this model. -/

structure AnalyticsState where
  fifo : FIFOInventory
  wac : WACInventory
  lastProcessedIds : List (ℕ × ℕ)
deriving DecidableEq

/-- The ordering `ORDER BY t.date, t.id` of the rebuild query. -/
def dateIdLe (a b : RawRow) : Bool :=
  decide (a.date < b.date || (a.date == b.date && a.id ≤ b.id))

/-- The body of `_rebuild_ledger_inventory` (analytics.py lines 175-243)
once `last_id` is fixed: select the ledger's qualifying rows (all of them
when `lastId = 0`, else only `id > lastId`) ordered by `(date, id)`, feed
them to the engine of the ledger's cost method — on top of whatever state
that engine already holds — and set the checkpoint to the largest replayed
id.  An empty selection changes nothing. -/
def rebuildLedgerCore (isFifo : Bool) (db : List RawRow) (s : AnalyticsState)
    (ledgerId : ℕ) (lastId : ℕ) : Except String AnalyticsState :=
  let rows := sortStable dateIdLe
    (db.filter (fun r => r.ledgerId == ledgerId && (lastId == 0 || decide (lastId < r.id))))
  if rows.isEmpty then .ok s
  else
    let maxId := (rows.map RawRow.id).foldl max 0
    if isFifo then
      (s.fifo.addStockFromDf rows).map (fun f =>
        { s with fifo := f, lastProcessedIds := assocSet ledgerId maxId s.lastProcessedIds })
    else
      (s.wac.addStockFromDf rows).map (fun w =>
        { s with wac := w, lastProcessedIds := assocSet ledgerId maxId s.lastProcessedIds })

/-- Embeds `_rebuild_ledger_inventory` (analytics.py lines 175-243): `force_full`
resets the ledger's checkpoint to 0 before replaying; a missing/zero
checkpoint without `force_full` recurses once with `force_full=True`. -/
def rebuildLedgerInventory (isFifo : Bool) (db : List RawRow) (s : AnalyticsState)
    (ledgerId : ℕ) (forceFull : Bool) : Except String AnalyticsState :=
  if forceFull then
    rebuildLedgerCore isFifo db
      { s with lastProcessedIds := assocSet ledgerId 0 s.lastProcessedIds } ledgerId 0
  else
    let last := (assocGet ledgerId s.lastProcessedIds).getD 0
    if last = 0 then
      rebuildLedgerCore isFifo db
        { s with lastProcessedIds := assocSet ledgerId 0 s.lastProcessedIds } ledgerId 0
    else rebuildLedgerCore isFifo db s ledgerId last

/-- Embeds `update_position` (analytics.py lines 280-354): with checkpoint below
`transaction_id - 1` force a full per-ledger rebuild; otherwise process the
single row into both engines and advance the checkpoint when the id is new. -/
def updatePosition (isFifo : Bool) (db : List RawRow) (s : AnalyticsState)
    (tx : RawRow) : Except String AnalyticsState :=
  let last := (assocGet tx.ledgerId s.lastProcessedIds).getD 0
  if (last : ℤ) < (tx.id : ℤ) - 1 then
    rebuildLedgerInventory isFifo db s tx.ledgerId true
  else
    (s.fifo.processSingleTransaction tx).bind (fun f =>
      (s.wac.processSingleTransaction tx).map (fun w =>
        { fifo := f, wac := w,
          lastProcessedIds :=
            if last < tx.id then assocSet tx.ledgerId tx.id s.lastProcessedIds
            else s.lastProcessedIds }))

/-! ## NAV-based return-rate calculator (src/return_rate_sqlite.py)

`calculate_return_rate` for a full (non-incremental) run with the snapshot
tables as data source (`db=None`): `initial_nav = 1`, `total_shares = 0`,
`prev_nav = 1`, `prev_total_assets = None`.  The per-date dictionaries
`capital_by_date`, `balance_by_date`, `position_by_date` become association
lists; a date they do not hold reads as 0 (`dict.get(key, 0)`), and
`exchange_pl_by_date` is always empty in the source.  The output row keeps
the exact decimal values the source computes before its `float(...)`
rendering; `当日收益率` is kept as the rational `daily_return` that the
source formats as a percent string. -/

structure NavRow where
  date : ℕ
  capital : ℚ
  confirmedShares : ℚ
  confirmNav : ℚ
  totalShares : ℚ
  nav : ℚ
  totalAssets : ℚ
  dailyPnl : ℚ
  dailyReturn : ℚ
  cumReturn : ℚ
deriving DecidableEq

structure RoundingDiff where
  date : ℕ
  rawShares : ℚ
  confirmedShares : ℚ
  shareDiff : ℚ
  roundingAmount : ℚ
  confirmNav : ℚ
deriving DecidableEq

structure NavState where
  totalShares : ℚ
  prevNav : ℚ
  prevTotalAssets : Option ℚ
  results : List NavRow
  roundingDiffs : List RoundingDiff
deriving DecidableEq

/-- Embeds `dict.get(key, 0)` over a per-date map. -/
def lookup0 (m : List (ℕ × ℚ)) (d : ℕ) : ℚ := (assocGet d m).getD 0

/-- Embeds `initial_nav = Decimal('1')`. -/
def initialNav : ℚ := 1

/-- One iteration of the date loop of `calculate_return_rate`
(return_rate_sqlite.py lines 314-441). -/
def processDay (capital balance position : List (ℕ × ℚ)) (st : NavState) (d : ℕ) :
    NavState :=
  let capitalAmount := lookup0 capital d
  let accountBalance := lookup0 balance d
  let positionValue := lookup0 position d
  let exchangePlAmount : ℚ := 0
  let totalAssets := accountBalance + positionValue + exchangePlAmount
  let prevTotalShares := st.totalShares
  if st.totalShares = 0 then
    if capitalAmount ≠ 0 then
      let nav := initialNav
      let rawShares := capitalAmount / nav
      let confirmedShares := q4 rawShares
      let shareDiff := rawShares - confirmedShares
      let rds :=
        if shareDiff ≠ 0 then
          st.roundingDiffs ++
            [⟨d, rawShares, confirmedShares, shareDiff, shareDiff * nav, nav⟩]
        else st.roundingDiffs
      { totalShares := confirmedShares, prevNav := nav,
        prevTotalAssets := some totalAssets,
        results := st.results ++
          [⟨d, capitalAmount, confirmedShares, nav, confirmedShares, nav,
            totalAssets, 0, 0, 0⟩],
        roundingDiffs := rds }
    else st
  else
    let nav0 :=
      if prevTotalShares ≠ 0 then (totalAssets - capitalAmount) / prevTotalShares
      else st.prevNav
    let nav := q6 nav0
    let dailyReturn := if 0 < st.prevNav then (nav - st.prevNav) / st.prevNav else 0
    let cumReturn := (nav - initialNav) / initialNav
    let confirmStep :=
      if capitalAmount ≠ 0 then
        let rawShares := capitalAmount / nav
        let confirmedShares := q4 rawShares
        let shareDiff := rawShares - confirmedShares
        let rds :=
          if shareDiff ≠ 0 then
            st.roundingDiffs ++
              [⟨d, rawShares, confirmedShares, shareDiff, shareDiff * nav, nav⟩]
          else st.roundingDiffs
        (confirmedShares, st.totalShares + confirmedShares, rds)
      else ((0 : ℚ), st.totalShares, st.roundingDiffs)
    let dailyPnl :=
      match st.prevTotalAssets with
      | some p => totalAssets - p - capitalAmount
      | none => 0
    { totalShares := confirmStep.2.1, prevNav := nav,
      prevTotalAssets := some totalAssets,
      results := st.results ++
        [⟨d, capitalAmount, confirmStep.1, nav, confirmStep.2.1, nav, totalAssets,
          dailyPnl, dailyReturn, cumReturn⟩],
      roundingDiffs := confirmStep.2.2 }

/-- Embeds `calculate_return_rate` (return_rate_sqlite.py lines 209-446), full
recomputation: fold the date loop from the initial state and return the
result rows and the rounding-difference rows. -/
def calculateReturnRate (dateRange : List ℕ)
    (capital balance position : List (ℕ × ℚ)) : List NavRow × List RoundingDiff :=
  let fin := dateRange.foldl (processDay capital balance position) ⟨0, 1, none, [], []⟩
  (fin.results, fin.roundingDiffs)

/-! ## Concrete example inputs and the NAV chain relation -/

/-- A transaction row whose signed quantity is exactly 0 (C10 witness input). -/
def zeroQtyRow : RawRow := ⟨0, 9, 1, 3, some ⟨9, 0, 50, 5, 0, 1⟩⟩

/-- Buy 100 for 1000, id 1 (C2 inputs). -/
def c2BuyRow : RawRow := ⟨0, 9, 1, 1, some ⟨9, 100, -1000, 5, 0, 1⟩⟩

/-- Sell 50 for 600, id 2 (C2 inputs). -/
def c2SellRow : RawRow := ⟨0, 9, 2, 2, some ⟨9, -50, 600, 5, 0, 1⟩⟩

/-- A state still holding the lot of transaction id 1 (C2 witness input). -/
def c2DupState : FIFOInventory := ⟨[((0, 9), [⟨1, 1, 9, 9, 100, 1000, 5, 0, 0, 1⟩])], []⟩

/-- A WAC state holding a 30-share short balance (C4 inputs). -/
def wacShortState : WACInventory :=
  ⟨[((0, 9), [(5, ⟨9, 9, -30, -300, 10, 5, 0, 0, 1⟩)])], [], false⟩

/-- Buy 100 for 1000 against the short (C4 inputs). -/
def c4BuyRow : RawRow := ⟨0, 9, 2, 2, some ⟨9, 100, -1000, 5, 0, 1⟩⟩

/-- A malformed row: its required columns fail parsing (C8 inputs). -/
def c8BadRow : RawRow := ⟨0, 9, 1, 7, none⟩

/-- A well-formed buy row dated after the malformed one (C8 inputs). -/
def c8GoodRow : RawRow := ⟨0, 9, 2, 8, some ⟨9, 10, -100, 5, 0, 1⟩⟩

/-- Sell 30 for 300 with nothing held, id 1 (C9 failing input). -/
def c9SellRow : RawRow := ⟨0, 9, 1, 1, some ⟨9, -30, 300, 5, 0, 1⟩⟩

/-- Buy 100 for 1000, id 2, fully covering the short (C9 failing input). -/
def c9BuyRow : RawRow := ⟨0, 9, 2, 2, some ⟨9, 100, -1000, 5, 0, 1⟩⟩

/-- A state holding one 100-share lot with book value 1000 (C3 inputs). -/
def c3HeldState : FIFOInventory := ⟨[((0, 9), [⟨1, 1, 9, 9, 100, 1000, 5, 0, 0, 1⟩])], []⟩

/-- Sell 150 for proceeds 500, exceeding the 100 held (C3 inputs). -/
def c3SellRow : RawRow := ⟨0, 9, 2, 2, some ⟨9, -150, 500, 5, 0, 1⟩⟩

/-- A NAV fold state with 1000 units outstanding (C6 witness input). -/
def c6St : NavState := ⟨1000, 1, some 1000, [], []⟩

/-- Controller state with checkpoint 1 for ledger 0 (C7 fast-path input). -/
def c7FastState : AnalyticsState := ⟨⟨[], []⟩, ⟨[], [], false⟩, [(0, 1)]⟩

/-- A new transaction with id 2 = checkpoint + 1 (C7 fast-path input). -/
def c7Tx : RawRow := ⟨0, 9, 5, 2, some ⟨9, 100, -1000, 5, 0, 1⟩⟩

/-- Controller state whose FIFO engine holds a stale lot, batch id 99, with no checkpoint (C7 rebuild input). -/
def c7StaleState : AnalyticsState :=
  ⟨⟨[((0, 9), [⟨99, 1, 9, 9, 7, 70, 5, 0, 0, 1⟩])], []⟩, ⟨[], [], false⟩, []⟩

/-- The transaction store: three buys with ids 1..3 for ledger 0 (C7 rebuild input). -/
def c7Db : List RawRow :=
  [⟨0, 9, 1, 1, some ⟨9, 10, -100, 5, 0, 1⟩⟩,
   ⟨0, 9, 2, 2, some ⟨9, 10, -100, 5, 0, 1⟩⟩,
   ⟨0, 9, 3, 3, some ⟨9, 10, -100, 5, 0, 1⟩⟩]

/-- The newly arrived transaction, id 3, with checkpoint 0 < 3 - 1 (C7 rebuild input). -/
def c7Tx3 : RawRow := ⟨0, 9, 3, 3, some ⟨9, 10, -100, 5, 0, 1⟩⟩

/-- Relation between consecutive emitted NAV rows (C5): which branch produced the later row is determined by the earlier row's total units. -/
def navRel (a b : NavRow) : Prop :=
  (a.totalShares = 0 → b.nav = 1 ∧ b.cumReturn = 0 ∧ b.dailyReturn = 0) ∧
  (a.totalShares ≠ 0 →
    b.nav = q6 ((b.totalAssets - b.capital) / a.totalShares) ∧
    b.dailyReturn = (if 0 < a.nav then (b.nav - a.nav) / a.nav else 0) ∧
    b.cumReturn = b.nav - 1)

/-- Induction invariant of the NAV date loop: the fold scalars mirror the last emitted row, an empty output means zero units, the first emitted row is a day-one row, and consecutive rows satisfy navRel. -/
def navInvariant (st : NavState) : Prop :=
  (st.results = [] → st.totalShares = 0) ∧
  (∀ lastRow, st.results.getLast? = some lastRow →
      st.totalShares = lastRow.totalShares ∧ st.prevNav = lastRow.nav) ∧
  (∀ r, st.results.head? = some r → r.nav = 1 ∧ r.cumReturn = 0) ∧
  List.Chain' navRel st.results

/-! ## Helper lemmas -/

theorem rhu_intCast (n : ℤ) : rhu (n : ℚ) = n := by
  unfold rhu
  rcases le_or_lt 0 ((n : ℚ)) with h | h
  · rw [if_pos h]
    rw [show ((n : ℚ) + 1/2) = (1/2 : ℚ) + (n : ℤ) by ring]
    rw [Int.floor_add_int]
    norm_num
  · rw [if_neg (not_le.mpr h)]
    rw [show (-(n : ℚ) + 1/2) = (1/2 : ℚ) + ((-n : ℤ) : ℚ) by push_cast; ring]
    rw [Int.floor_add_int]
    norm_num

theorem isCents_q2 (x : ℚ) : isCents (q2 x) := ⟨rhu (x * 100), rfl⟩

theorem isCents_zero : isCents 0 := ⟨0, by norm_num⟩

theorem isCents_add {x y : ℚ} (hx : isCents x) (hy : isCents y) : isCents (x + y) := by
  obtain ⟨n, rfl⟩ := hx
  obtain ⟨m, rfl⟩ := hy
  exact ⟨n + m, by push_cast; ring⟩

theorem isCents_sub {x y : ℚ} (hx : isCents x) (hy : isCents y) : isCents (x - y) := by
  obtain ⟨n, rfl⟩ := hx
  obtain ⟨m, rfl⟩ := hy
  exact ⟨n - m, by push_cast; ring⟩

theorem q2_eq_self {x : ℚ} (hx : isCents x) : q2 x = x := by
  obtain ⟨n, rfl⟩ := hx
  unfold q2
  rw [show ((n : ℚ) / 100 * 100) = (n : ℚ) by field_simp, rhu_intCast]

theorem assocGet_assocSet_self {κ β : Type} [DecidableEq κ] (k : κ) (v : β)
    (l : List (κ × β)) : assocGet k (assocSet k v l) = some v := by
  induction l with
  | nil => simp [assocGet, assocSet]
  | cons p rest ih =>
      by_cases h : p.1 = k
      · simp [assocGet, assocSet, h]
      · simp [assocGet, assocSet, h, ih]

theorem assocSet_assocSet {κ β : Type} [DecidableEq κ] (k : κ) (v1 v2 : β)
    (l : List (κ × β)) : assocSet k v2 (assocSet k v1 l) = assocSet k v2 l := by
  induction l with
  | nil => simp [assocSet]
  | cons p rest ih =>
      by_cases h : p.1 = k
      · simp [assocSet, h]
      · simp [assocSet, h, ih]

theorem assocGet_append_right {κ β : Type} [DecidableEq κ] (k : κ) (v : β)
    (l : List (κ × β)) (h : assocGet k l = none) :
    assocGet k (l ++ [(k, v)]) = some v := by
  induction l with
  | nil => simp [assocGet]
  | cons p rest ih =>
      by_cases hp : p.1 = k
      · simp [assocGet, hp] at h
      · simp [assocGet, hp] at h ⊢
        exact ih h

theorem assocGet_ensureKey {κ β : Type} [DecidableEq κ] (k : κ) (v0 : β)
    (l : List (κ × β)) :
    assocGet k (ensureKey k v0 l) = some ((assocGet k l).getD v0) := by
  unfold ensureKey
  cases h : assocGet k l with
  | some v => simp [h]
  | none => simp [assocGet_append_right k v0 l h]

theorem getRecs_ensureKey (k : ℕ × ℕ) (inv : InvMap) :
    getRecs (ensureKey k [] inv) k = getRecs inv k := by
  unfold getRecs
  rw [assocGet_ensureKey]
  cases h : assocGet k inv <;> simp

theorem getRecs_assocSet_self (k : ℕ × ℕ) (v : List InventoryRecord) (inv : InvMap) :
    getRecs (assocSet k v inv) k = v := by
  unfold getRecs
  rw [assocGet_assocSet_self]
  rfl

theorem getLast?_append_singleton {α : Type} (l : List α) (a : α) :
    (l ++ [a]).getLast? = some a :=
  List.getLast?_concat l

theorem mem_insertSorted {α : Type} (le : α → α → Bool) (x a : α) (l : List α) :
    a ∈ insertSorted le x l ↔ a = x ∨ a ∈ l := by
  induction l with
  | nil => simp [insertSorted]
  | cons y ys ih =>
      unfold insertSorted
      by_cases h : le y x = true
      · rw [if_pos h]
        simp only [List.mem_cons, ih]
        tauto
      · rw [if_neg h]
        simp [List.mem_cons]

theorem mem_sortStable {α : Type} (le : α → α → Bool) (a : α) (l : List α) :
    a ∈ sortStable le l ↔ a ∈ l := by
  have key : ∀ (l acc : List α),
      a ∈ l.foldl (fun acc x => insertSorted le x acc) acc ↔ a ∈ acc ∨ a ∈ l := by
    intro l
    induction l with
    | nil => simp
    | cons x xs ih =>
        intro acc
        rw [List.foldl_cons, ih, mem_insertSorted]
        simp only [List.mem_cons]
        tauto
  unfold sortStable
  rw [key]
  simp

/-! ## Engine-level lemmas -/

/-- Ensuring a key does not change what its account map reads as. -/
theorem getAccts_ensureKey (k : ℕ × ℕ) (inv : WacMap) :
    getAccts (ensureKey k [] inv) k = getAccts inv k := by
  unfold getAccts
  rw [assocGet_ensureKey]
  cases h : assocGet k inv <;> simp

/-- Ensuring a key twice is the same as once. -/
theorem ensureKey_idem {κ β : Type} [DecidableEq κ] (k : κ) (v0 : β)
    (l : List (κ × β)) : ensureKey k v0 (ensureKey k v0 l) = ensureKey k v0 l := by
  cases h0 : assocGet k l with
  | some v =>
      have h1 : ensureKey k v0 l = l := by unfold ensureKey; rw [h0]
      rw [h1]
      exact h1
  | none =>
      have h1 : ensureKey k v0 l = l ++ [(k, v0)] := by unfold ensureKey; rw [h0]
      rw [h1]
      unfold ensureKey
      rw [assocGet_append_right k v0 l h0]

/-- When the sold quantity strictly exceeds the positive batches available, `_process_inventory_removal` consumes every batch and returns exactly the uncovered remainder. -/
theorem removalLoop_consumes_all (k : ℕ × ℕ) (batches : List InventoryRecord) :
    ∀ (inv : InvMap) (remaining : ℚ),
    (∀ b ∈ batches, 0 < b.quantity) →
    (batches.map InventoryRecord.quantity).sum < remaining →
    ∃ inv2 cs, removalLoop k inv batches remaining
      = (inv2, cs, remaining - (batches.map InventoryRecord.quantity).sum) := by
  induction batches with
  | nil =>
      intro inv remaining _ _
      exact ⟨inv, [], by simp [removalLoop]⟩
  | cons b rest ih =>
      intro inv remaining hpos hlt
      have hbpos : 0 < b.quantity := hpos b (List.mem_cons_self b rest)
      have hrestpos : ∀ x ∈ rest, 0 < x.quantity := fun x hx =>
        hpos x (List.mem_cons_of_mem b hx)
      have hsum_nonneg : 0 ≤ (rest.map InventoryRecord.quantity).sum := by
        apply List.sum_nonneg
        intro x hx
        obtain ⟨y, hy, rfl⟩ := List.mem_map.mp hx
        exact le_of_lt (hrestpos y hy)
      have hsum : (List.map InventoryRecord.quantity (b :: rest)).sum
          = b.quantity + (rest.map InventoryRecord.quantity).sum := by simp
      rw [hsum] at hlt ⊢
      have h1 : ¬(remaining ≤ 0) := by push_neg; linarith
      have h2 : b.quantity ≤ remaining := by linarith
      obtain ⟨inv2, cs, hrec⟩ := ih (assocSet k (eraseFirst b (getRecs inv k)) inv)
        (remaining - b.quantity) hrestpos (by linarith)
      refine ⟨inv2, ⟨b.batchId, b.quantity, b.bookValue, b.exchangeRate⟩ :: cs, ?_⟩
      simp only [removalLoop]
      rw [if_neg h1, if_pos h2]
      simp only [hrec]
      refine Prod.ext rfl (Prod.ext rfl ?_)
      simp
      ring

/-- A well-formed row never makes the FIFO engine raise: the only `raise` sites are the parse failure and the `remove_stock` guard, which a sell (negative quantity) cannot trip. -/
theorem processSingleTransaction_ok_of_wellformed (s : FIFOInventory) (row : RawRow)
    (f : TxFields) (hf : row.fields = some f) :
    ∃ s2, s.processSingleTransaction row = .ok s2 := by
  simp only [FIFOInventory.processSingleTransaction, hf]
  split
  · exact ⟨s, rfl⟩
  · split
    · exact ⟨_, rfl⟩
    · split
      next hneg =>
        simp only [handleSellTransaction, removeStock]
        rw [if_neg (by linarith : ¬(-f.quantity ≤ 0))]
        exact ⟨_, rfl⟩
      · exact ⟨s, rfl⟩

/-- The row loop propagates the parse error of any malformed row it reaches. -/
theorem processRows_error (s : FIFOInventory) (rows : List RawRow)
    (h : ∃ r ∈ rows, r.fields = none) :
    s.processRows rows = .error parseErrorMsg := by
  induction rows generalizing s with
  | nil => simp at h
  | cons row rest ih =>
      obtain ⟨r, hr, hnone⟩ := h
      rcases List.mem_cons.mp hr with rfl | hmem
      · simp only [FIFOInventory.processRows]
        simp [FIFOInventory.processSingleTransaction, hnone, Except.bind]
      · cases hfields : row.fields with
        | none =>
            simp only [FIFOInventory.processRows]
            simp [FIFOInventory.processSingleTransaction, hfields, Except.bind]
        | some f =>
            obtain ⟨s2, hs2⟩ := processSingleTransaction_ok_of_wellformed s row f hfields
            simp only [FIFOInventory.processRows, hs2, Except.bind]
            exact ih s2 ⟨r, hmem, hnone⟩

/-- The row loop succeeds on an all-well-formed group. -/
theorem processRows_ok_of_wellformed (s : FIFOInventory) (rows : List RawRow)
    (h : ∀ r ∈ rows, r.fields ≠ none) :
    ∃ s2, s.processRows rows = .ok s2 := by
  induction rows generalizing s with
  | nil => exact ⟨s, rfl⟩
  | cons row rest ih =>
      cases hfields : row.fields with
      | none => exact absurd hfields (h row (List.mem_cons_self row rest))
      | some f =>
          obtain ⟨s2, hs2⟩ := processSingleTransaction_ok_of_wellformed s row f hfields
          obtain ⟨s3, hs3⟩ := ih s2 (fun r hr => h r (List.mem_cons_of_mem row hr))
          exact ⟨s3, by simp only [FIFOInventory.processRows, hs2, Except.bind]; exact hs3⟩

/-- The group loop errors whenever some group holds a malformed row. -/
theorem processGroups_error (rows : List RawRow) :
    ∀ (keys : List (ℕ × ℕ)) (s : FIFOInventory),
    (∃ r ∈ rows, r.fields = none ∧ (r.ledgerId, r.code) ∈ keys) →
    FIFOInventory.processGroups rows s keys = .error parseErrorMsg := by
  intro keys
  induction keys with
  | nil => intro s h; obtain ⟨r, _, _, hk⟩ := h; simp at hk
  | cons k ks ih =>
      intro s h
      obtain ⟨r, hr, hnone, hkey⟩ := h
      by_cases hing : ∃ r2 ∈ sortStable (fun a b => decide (a.date ≤ b.date))
          (rows.filter (fun r => r.ledgerId == k.1 && r.code == k.2)), r2.fields = none
      · have herr := processRows_error ⟨ensureKey k [] s.inventory, s.realized⟩ _ hing
        simp only [FIFOInventory.processGroups, Except.bind, herr]
      · have hwf : ∀ r2 ∈ sortStable (fun a b => decide (a.date ≤ b.date))
            (rows.filter (fun r => r.ledgerId == k.1 && r.code == k.2)), r2.fields ≠ none := by
          intro r2 h2 hc
          exact hing ⟨r2, h2, hc⟩
        obtain ⟨s2, hs2⟩ :=
          processRows_ok_of_wellformed ⟨ensureKey k [] s.inventory, s.realized⟩ _ hwf
        have hks : (r.ledgerId, r.code) ∈ ks := by
          rcases List.mem_cons.mp hkey with heq | hks
          · exfalso
            apply hing
            refine ⟨r, ?_, hnone⟩
            rw [mem_sortStable]
            refine List.mem_filter.mpr ⟨hr, ?_⟩
            have h1 : r.ledgerId = k.1 := by rw [← heq]
            have h2 : r.code = k.2 := by rw [← heq]
            simp [h1, h2]
          · exact hks
        simp only [FIFOInventory.processGroups, Except.bind, hs2]
        exact ih s2 ⟨r, hr, hnone, hks⟩

/-- Every row's key appears among the group keys. -/
theorem mem_groupKeys (rows : List RawRow) (r : RawRow) (hr : r ∈ rows) :
    (r.ledgerId, r.code) ∈ groupKeys rows := by
  unfold groupKeys
  rw [mem_sortStable, List.mem_dedup]
  exact List.mem_map_of_mem _ hr

/-- The income fields emitted by the allocation loop of `_calculate_realized_pl`: proportional rounded shares for every consumed record but the last, and the running remainder for the last. -/
theorem plLoop_incomes (inv : InvMap) (ctx : SellCtx) (totalSellQ totalSellBV : ℚ)
    (hbv : isCents totalSellBV) :
    ∀ (l : List Consumed) (allocated : ℚ), l ≠ [] → isCents allocated →
    (plLoop inv ctx totalSellQ totalSellBV allocated l).map PLDetail.income
      = l.dropLast.map (fun c => q2 (c.quantity / totalSellQ * totalSellBV))
        ++ [totalSellBV - allocated
            - (l.dropLast.map (fun c => q2 (c.quantity / totalSellQ * totalSellBV))).sum] := by
  intro l
  induction l with
  | nil => intro allocated h _; exact absurd rfl h
  | cons c rest ih =>
      intro allocated _ halloc
      cases rest with
      | nil =>
          simp only [plLoop, List.map]
          rw [show (mkPlDetail inv ctx c (q2 (totalSellBV - allocated))).income
              = q2 (totalSellBV - allocated) from rfl]
          rw [q2_eq_self (isCents_sub hbv halloc)]
          simp
      | cons c2 rest2 =>
          simp only [plLoop, List.map_cons]
          rw [show (mkPlDetail inv ctx c
              (q2 (c.quantity / totalSellQ * totalSellBV))).income
              = q2 (c.quantity / totalSellQ * totalSellBV) from rfl]
          rw [ih (allocated + q2 (c.quantity / totalSellQ * totalSellBV))
            (by simp) (isCents_add halloc (isCents_q2 _))]
          rw [List.dropLast_cons₂, List.map_cons, List.sum_cons, List.cons_append]
          have key : ∀ x u : ℚ, totalSellBV - (allocated + x) - u
              = totalSellBV - allocated - (x + u) := by
            intro x u
            ring
          rw [key]

/-- One iteration of the NAV date loop preserves the invariant. -/
theorem processDay_preserves (capital balance position : List (ℕ × ℚ)) (st : NavState)
    (d : ℕ) (h : navInvariant st) :
    navInvariant (processDay capital balance position st d) := by
  obtain ⟨h1, h2, h3, h4⟩ := h
  by_cases hs : st.totalShares = 0
  · by_cases hc : lookup0 capital d ≠ 0
    · simp only [processDay]
      rw [if_pos hs, if_pos hc]
      refine ⟨?_, ?_, ?_, ?_⟩
      · intro habs
        simp at habs
      · intro lastRow hl
        rw [getLast?_append_singleton] at hl
        injection hl with hh
        subst hh
        exact ⟨rfl, rfl⟩
      · intro r hr
        cases hres : st.results with
        | nil =>
            rw [hres] at hr
            simp at hr
            subst hr
            exact ⟨rfl, rfl⟩
        | cons x xs =>
            rw [hres] at hr
            simp at hr
            subst hr
            exact h3 x (by rw [hres]; rfl)
      · apply List.chain'_append.mpr
        refine ⟨h4, List.chain'_singleton _, ?_⟩
        intro x hx y hy
        simp at hy
        subst hy
        constructor
        · intro _
          exact ⟨rfl, rfl, rfl⟩
        · intro hxne
          exfalso
          exact hxne ((h2 x hx).1 ▸ hs)
    · simp only [processDay]
      rw [if_pos hs, if_neg hc]
      exact ⟨h1, h2, h3, h4⟩
  · simp only [processDay]
    rw [if_neg hs]
    have hresne : st.results ≠ [] := fun hres => hs (h1 hres)
    obtain ⟨lastRow, hlast⟩ : ∃ lastRow, st.results.getLast? = some lastRow := by
      cases hres : st.results.getLast? with
      | none => exact absurd (List.getLast?_eq_none_iff.mp hres) hresne
      | some lastRow => exact ⟨lastRow, rfl⟩
    refine ⟨?_, ?_, ?_, ?_⟩
    · intro habs
      simp at habs
    · intro lastRow2 hl
      rw [getLast?_append_singleton] at hl
      injection hl with hh
      subst hh
      exact ⟨rfl, rfl⟩
    · intro r hr
      cases hres : st.results with
      | nil => exact absurd hres hresne
      | cons x xs =>
          rw [hres] at hr
          simp at hr
          subst hr
          exact h3 x (by rw [hres]; rfl)
    · apply List.chain'_append.mpr
      refine ⟨h4, List.chain'_singleton _, ?_⟩
      intro x hx y hy
      simp at hy
      subst hy
      rw [hlast] at hx
      simp at hx
      subst hx
      constructor
      · intro hx0
        exact absurd ((h2 lastRow hlast).1.trans hx0) hs
      · intro _
        refine ⟨?_, ?_, ?_⟩
        · rw [← (h2 lastRow hlast).1]
          rw [if_neg hs]
        · rw [← (h2 lastRow hlast).2]
        · show (q6 _ - initialNav) / initialNav = q6 _ - 1
          rw [show initialNav = (1 : ℚ) from rfl, div_one]

/-- The whole NAV date loop preserves the invariant. -/
theorem navFold_invariant (capital balance position : List (ℕ × ℚ)) (days : List ℕ) :
    ∀ (st : NavState), navInvariant st →
    navInvariant (days.foldl (processDay capital balance position) st) := by
  induction days with
  | nil => intro st h; exact h
  | cons d rest ih =>
      intro st h
      exact ih _ (processDay_preserves capital balance position st d h)

/-! ## The claims -/

/-- C1: for a FIFO sale whose consumed records include at least one positive lot, the `income` fields of the emitted realized-P&L events are exactly: the quantity-proportional share of the allocated proceeds rounded to 2 decimals half-up for every consumed lot but the last, and the allocated proceeds minus the already-allocated income for the last; their sum equals the allocated proceeds (sell book value times the consumed-quantity share of the sold quantity, rounded to 2 decimals half-up) exactly. -/
theorem c1_income_allocation (inv : InvMap) (ctx : SellCtx) (removed : List Consumed)
    (sellBookValue originalQuantity : ℚ) (normal : List Consumed) (totalSellBV : ℚ)
    (pre : List ℚ)
    (hnormal : normal = removed.filter (fun c => decide (0 < c.quantity)))
    (hne : normal ≠ [])
    (htb : totalSellBV
        = q2 (sellBookValue * ((normal.map Consumed.quantity).sum / originalQuantity)))
    (hpre : pre = normal.dropLast.map
        (fun c => q2 (c.quantity / (normal.map Consumed.quantity).sum * totalSellBV))) :
    (calculateRealizedPl inv ctx removed sellBookValue originalQuantity).map PLDetail.income
      = pre ++ [totalSellBV - pre.sum]
    ∧ ((calculateRealizedPl inv ctx removed sellBookValue originalQuantity).map
        PLDetail.income).sum = totalSellBV := by
  have hempty : normal.isEmpty = false := by
    cases h : normal with
    | nil => exact absurd h hne
    | cons a l => rfl
  have hmain : (calculateRealizedPl inv ctx removed sellBookValue originalQuantity).map
      PLDetail.income = pre ++ [totalSellBV - pre.sum] := by
    unfold calculateRealizedPl
    rw [← hnormal]
    simp only [hempty, Bool.false_eq_true, if_false]
    rw [← htb]
    rw [plLoop_incomes inv ctx _ totalSellBV (by rw [htb]; exact isCents_q2 _)
      normal 0 hne isCents_zero]
    rw [← hpre, sub_zero]
  refine ⟨hmain, ?_⟩
  rw [hmain]
  rw [List.sum_append, List.sum_cons, List.sum_nil]
  ring

/-- C1 witness: a concrete sale over two consumed lots; the incomes sum to the full 200. -/
theorem c1_witness :
    ((calculateRealizedPl [] ⟨0, 9, 3, 9, 5, 0, 7, 1⟩ [⟨1, 10, 100, 1⟩, ⟨2, 5, 60, 1⟩]
        200 15).map PLDetail.income).sum = 200 := by
  have h := c1_income_allocation [] ⟨0, 9, 3, 9, 5, 0, 7, 1⟩
    [⟨1, 10, 100, 1⟩, ⟨2, 5, 60, 1⟩] 200 15 [⟨1, 10, 100, 1⟩, ⟨2, 5, 60, 1⟩] 200
    [13333/100] (by norm_num) (by simp) (by norm_num [q2, rhu])
    (by norm_num [q2, rhu])
  exact h.2

/-- C2 (amended): reprocessing a transaction is a no-op exactly while the `(ledger, code)` key's inventory still holds a record carrying that transaction id and account — a buy whose lot survives, or a sell that opened a short. The claim as stated (idempotence for every already-processed (id, account) pair, buys and sells alike) is false on the code: the dedup check only scans surviving inventory records. -/
theorem c2_amended_thm (s : FIFOInventory) (row : RawRow)
    (f : TxFields) (hf : row.fields = some f)
    (hdup : ∃ r ∈ getRecs s.inventory (row.ledgerId, row.code),
        r.batchId = row.id ∧ r.account = f.account) :
    s.processSingleTransaction row = .ok s := by
  simp only [FIFOInventory.processSingleTransaction, hf]
  have hany : (getRecs s.inventory (row.ledgerId, row.code)).any
      (fun r => r.batchId == row.id && r.account == f.account) = true := by
    obtain ⟨r, hr, h1, h2⟩ := hdup
    exact List.any_eq_true.mpr ⟨r, hr, by simp [h1, h2]⟩
  simp [hany]

/-- C2 witness: reprocessing buy id 1 while its lot survives is a no-op on a concrete state. -/
theorem c2_witness :
    FIFOInventory.processSingleTransaction c2DupState c2BuyRow = .ok c2DupState :=
  c2_amended_thm c2DupState c2BuyRow ⟨9, 100, -1000, 5, 0, 1⟩ rfl
    ⟨⟨1, 1, 9, 9, 100, 1000, 5, 0, 0, 1⟩, by simp [c2DupState, c2BuyRow, getRecs, assocGet],
      ⟨rfl, rfl⟩⟩

/-- C2 counterexample: buy 100 (id 1), sell 50 (id 2), then submit the identical sell again. The second processing is not a no-op: the realized-P&L list grows from 1 to 2 events and the total quantity drops from 50 to 0. -/
theorem c2_counterexample :
    (FIFOInventory.processSingleTransaction ⟨[], []⟩ c2BuyRow).bind
      (fun s1 => (s1.processSingleTransaction c2SellRow).bind
        (fun s2 => (s2.processSingleTransaction c2SellRow).map
          (fun s3 => (s2.realized.length, s3.realized.length,
            s2.getTotalQuantity 0 9 none, s3.getTotalQuantity 0 9 none))))
    = Except.ok (1, 2, 50, 0) := by
  norm_num [c2BuyRow, c2SellRow, FIFOInventory.processSingleTransaction,
    handleBuyTransaction, handleSellTransaction, coverShortPosition, coverLoop,
    coverFullShort, coverPartialShort, removeStock, removalLoop,
    createShortPosition, calculateRealizedPl, plLoop, mkPlDetail,
    getOriginalBatchInfo, getRecs, assocGet, assocSet, ensureKey, replaceFirst,
    eraseFirst, insertSorted, sortStable, q2, rhu,
    FIFOInventory.getTotalQuantity, Except.bind, Except.map, parseErrorMsg]

/-- C3 (amended): a FIFO sell with a fresh transaction id whose quantity exceeds the positive inventory held for its (ledger, security, account) in the row's currency never raises: processing returns `Except.ok`, and the key's inventory ends with a short lot whose quantity is the negated uncovered remainder and whose book value is the NEGATION of the share (uncovered remainder / total sold quantity) of the total sale proceeds, rounded to 2 decimals half-up. Only the sign of the stored book value differs from the claim. -/
theorem c3_amended_thm (s : FIFOInventory) (row : RawRow) (f : TxFields) (held : ℚ)
    (hf : row.fields = some f) (hneg : f.quantity < 0)
    (hfresh : ∀ r ∈ getRecs s.inventory (row.ledgerId, row.code),
        ¬(r.batchId = row.id ∧ r.account = f.account))
    (hheld : held = (((getRecs s.inventory (row.ledgerId, row.code)).filter
        (fun b => b.account == f.account && decide (0 < b.quantity)
          && b.currency == f.currency)).map InventoryRecord.quantity).sum)
    (hexceed : held < -f.quantity) :
    ∃ s2, s.processSingleTransaction row = .ok s2 ∧
      (getRecs s2.inventory (row.ledgerId, row.code)).getLast? = some
        { batchId := row.id, date := row.date, code := row.code, name := f.name,
          quantity := -(-f.quantity - held),
          bookValue := -q2 ((-f.quantity - held) / -f.quantity * |f.bookValue|),
          account := f.account, ledgerId := row.ledgerId, currency := f.currency,
          exchangeRate := f.exchangeRate } := by
  have hany : (getRecs s.inventory (row.ledgerId, row.code)).any
      (fun r => r.batchId == row.id && r.account == f.account) = false := by
    rw [List.any_eq_false]
    intro r hr
    have h := hfresh r hr
    simp only [Bool.and_eq_true, beq_iff_eq]
    tauto
  have hpos : ∀ b ∈ (getRecs (ensureKey (row.ledgerId, row.code) [] s.inventory)
      (row.ledgerId, row.code)).filter
      (fun b => b.account == f.account && decide (0 < b.quantity)
        && b.currency == f.currency), 0 < b.quantity := by
    intro b hb
    have h2 := (List.mem_filter.mp hb).2
    simp only [Bool.and_eq_true, decide_eq_true_eq] at h2
    exact h2.1.2
  have hsum : (((getRecs (ensureKey (row.ledgerId, row.code) [] s.inventory)
      (row.ledgerId, row.code)).filter
      (fun b => b.account == f.account && decide (0 < b.quantity)
        && b.currency == f.currency)).map InventoryRecord.quantity).sum = held := by
    rw [getRecs_ensureKey, hheld]
  obtain ⟨inv2, cs, hrec⟩ := removalLoop_consumes_all (row.ledgerId, row.code) _
    (ensureKey (row.ledgerId, row.code) [] s.inventory)
    (-f.quantity) hpos (by rw [hsum]; exact hexceed)
  rw [hsum] at hrec
  simp only [FIFOInventory.processSingleTransaction, hf, hany]
  rw [if_neg (by simp : ¬(false = true))]
  rw [if_neg (by linarith : ¬(0 < f.quantity)), if_pos hneg]
  simp only [handleSellTransaction, removeStock]
  rw [if_neg (by linarith : ¬(-f.quantity ≤ 0))]
  simp only [ensureKey_idem, hrec]
  rw [if_pos (by linarith : (0:ℚ) < -f.quantity - held)]
  simp only [createShortPosition, Except.map]
  refine ⟨_, rfl, ?_⟩
  simp only [getRecs_assocSet_self]
  rw [getLast?_append_singleton]

/-- C3 witness: selling 150 with 100 held and proceeds 500 opens the short lot (-50, -166.67) on a concrete state. -/
theorem c3_witness :
    (FIFOInventory.processSingleTransaction c3HeldState c3SellRow).map
      (fun t => (getRecs t.inventory (0, 9)).getLast?)
    = Except.ok (some ⟨2, 2, 9, 9, -50, -(16667/100), 5, 0, 0, 1⟩) := by
  obtain ⟨s2, h1, h2⟩ := c3_amended_thm c3HeldState c3SellRow ⟨9, -150, 500, 5, 0, 1⟩ 100
    rfl (by norm_num) (by norm_num [c3HeldState, c3SellRow, getRecs, assocGet])
    (by norm_num [c3HeldState, c3SellRow, getRecs, assocGet]) (by norm_num)
  simp only [c3SellRow] at h1 h2 ⊢
  rw [h1]
  simp only [Except.map]
  rw [h2]
  norm_num [InventoryRecord.mk.injEq, q2, rhu]

/-- C3 counterexample: selling 150 with 100 held and proceeds 500 stores a short lot with book value -166.67, not the claim's positive share q2(50/150 * 500) = 166.67. -/
theorem c3_counterexample :
    ((FIFOInventory.processSingleTransaction c3HeldState c3SellRow).map
        (fun s2 => (getRecs s2.inventory (0, 9)).getLast?.map
          (fun r => (r.quantity, r.bookValue)))
      = Except.ok (some (-50, -(16667/100))))
    ∧ q2 ((50 : ℚ)/150 * 500) = 16667/100 := by
  constructor
  · norm_num [c3HeldState, c3SellRow, FIFOInventory.processSingleTransaction,
      handleBuyTransaction, handleSellTransaction, coverShortPosition, coverLoop,
      removeStock, removalLoop, createShortPosition, calculateRealizedPl, plLoop,
      mkPlDetail, getOriginalBatchInfo, getRecs, assocGet, assocSet, ensureKey,
      replaceFirst, eraseFirst, q2, rhu, Except.bind, Except.map]
  · norm_num [q2, rhu]

/-- C4 (amended): in the WAC engine a buy applied to a key whose balance is a short (negative quantity) appends NO realized-P&L event: `_handle_buy_transaction` only blends the balance in place and never touches `realized_pl_details`. The claim as stated (covering buys compute realized P&L) is false on the code. -/
theorem c4_amended_thm (s : WACInventory) (row : RawRow) (f : TxFields)
    (r : WACInventoryRecord) (hf : row.fields = some f) (hbuy : 0 < f.quantity)
    (hr : assocGet f.account (getAccts s.inventory (row.ledgerId, row.code)) = some r)
    (_hshort : r.quantity < 0) (hnz : r.quantity + f.quantity ≠ 0) :
    ∃ s2, s.processSingleTransaction row = .ok s2 ∧ s2.realized = s.realized := by
  simp only [WACInventory.processSingleTransaction, hf]
  rw [if_pos hbuy]
  simp only [wacHandleBuy, getAccts_ensureKey, hr]
  rw [if_neg hnz]
  exact ⟨_, rfl, rfl⟩

/-- C4 witness: a concrete covering buy leaves the realized-P&L list unchanged. -/
theorem c4_witness :
    ∃ s2, wacShortState.processSingleTransaction c4BuyRow = .ok s2 ∧
      s2.realized = wacShortState.realized :=
  c4_amended_thm wacShortState c4BuyRow ⟨9, 100, -1000, 5, 0, 1⟩
    ⟨9, 9, -30, -300, 10, 5, 0, 0, 1⟩ rfl (by norm_num)
    (by simp [wacShortState, getAccts, assocGet]) (by norm_num) (by norm_num)

/-- C4 counterexample: a buy of 100 against a 30-share short balance leaves the realized-P&L list empty (length 0, not 1) while the quantity moves to 70. -/
theorem c4_counterexample :
    (wacShortState.processSingleTransaction c4BuyRow).map
      (fun s => (s.realized.length, s.getTotalQuantity 9 (some 5)))
    = Except.ok (0, 70) := by
  norm_num [wacShortState, c4BuyRow, WACInventory.processSingleTransaction,
    wacHandleBuy, wacHandleSell, getAccts, assocGet, assocSet, ensureKey,
    q4, q2, rhu, WACInventory.getTotalQuantity, WACInventory.getTotalQuantity.wacTotalLoop,
    Except.bind, Except.map]

/-- C5 (amended): in the NAV series the first emitted row always has unit price 1 and cumulative return 0; between consecutive emitted rows, when the earlier row's total units are nonzero the later row has unit price = (net assets - capital flow) / prior total units rounded to 6 decimals half-up, daily return = price/prior - 1 WHEN the prior unit price is positive and 0 otherwise, and cumulative return = price - 1; when the earlier row's total units are zero the later emitted row is again a day-one row. The claim's unconditional daily-return formula is false when the prior unit price is not positive. -/
theorem c5_amended_thm (dateRange : List ℕ) (capital balance position : List (ℕ × ℚ)) :
    (∀ r, (calculateReturnRate dateRange capital balance position).1.head? = some r →
        r.nav = 1 ∧ r.cumReturn = 0) ∧
    List.Chain' navRel (calculateReturnRate dateRange capital balance position).1 := by
  have h := navFold_invariant capital balance position dateRange ⟨0, 1, none, [], []⟩
    ⟨fun _ => rfl, fun lastRow hl => by simp at hl, fun r hr => by simp at hr,
      List.chain'_nil⟩
  exact ⟨h.2.2.1, h.2.2.2⟩

/-- C5 counterexample: day 2's net assets are -500, so the unit price falls to -0.5; on day 3 the prior unit price is not positive and the code emits daily return 0, while the claimed formula price/prior - 1 gives 1/(-0.5) - 1 = -3, which is not 0. -/
theorem c5_counterexample :
    ((calculateReturnRate [1, 2, 3] [(1, 1000)] [(1, 1000), (2, -500), (3, 1000)] []).1.map
      (fun r => (r.nav, r.dailyReturn))
      = [((1 : ℚ), (0 : ℚ)), (-1/2, -3/2), (1, 0)])
    ∧ ((1 : ℚ) / (-1/2) - 1 ≠ 0) := by
  constructor
  · norm_num [calculateReturnRate, processDay, lookup0, assocGet, q4, q6, rhu, initialNav]
  · norm_num

/-- C6 (amended): a date of the computation range with no net-asset snapshot (no balance entry and no position entry) is NOT omitted: once total units are nonzero the day still emits a row whose net assets are read as 0 (`dict.get(key, 0)`). The claim as stated (such dates are omitted from the output, never zero-filled) is false on the code. -/
theorem c6_amended_thm (capital balance position : List (ℕ × ℚ)) (st : NavState) (d : ℕ)
    (hb : assocGet d balance = none) (hp : assocGet d position = none)
    (hs : st.totalShares ≠ 0) :
    ∃ row : NavRow, (processDay capital balance position st d).results
        = st.results ++ [row] ∧ row.date = d ∧ row.totalAssets = 0 := by
  simp only [processDay, lookup0, hb, hp, Option.getD_none]
  rw [if_neg hs]
  refine ⟨_, rfl, rfl, ?_⟩
  norm_num

/-- C6 witness: a concrete day with no snapshot data still emits a row with net assets 0. -/
theorem c6_witness :
    ∃ row : NavRow, (processDay [] [] [] c6St 2).results = c6St.results ++ [row] ∧
      row.date = 2 ∧ row.totalAssets = 0 :=
  c6_amended_thm [] [] [] c6St 2 rfl rfl (by norm_num [c6St])

/-- C6 counterexample: with flow 1000 and assets 1000 on day 1 and no data at all for day 2, the series still emits day 2, with net assets 0. -/
theorem c6_counterexample :
    (calculateReturnRate [1, 2] [(1, 1000)] [(1, 1000)] []).1.map
      (fun r => (r.date, r.totalAssets)) = [(1, 1000), (2, 0)] := by
  norm_num [calculateReturnRate, processDay, lookup0, assocGet, q4, q6, rhu, initialNav]

/-- C7 (amended): when a transaction with id n arrives, a checkpoint equal to n - 1 makes `update_position` process exactly that one row into both engines and advance the checkpoint to n; a checkpoint below n - 1 forces a per-ledger full rebuild that replays ALL of the ledger's qualifying transactions ordered by (date, id) ON TOP OF the existing engine state — `_rebuild_ledger_inventory` never clears it — with the checkpoint set to the maximum replayed id after the replay. The claim's 'clearing engine state' is false on the code. -/
theorem c7_amended_thm (isFifo : Bool) (db : List RawRow) (s : AnalyticsState)
    (tx : RawRow) (last : ℕ)
    (hlast : last = (assocGet tx.ledgerId s.lastProcessedIds).getD 0) :
    (((last : ℤ) = (tx.id : ℤ) - 1) →
      updatePosition isFifo db s tx =
        (s.fifo.processSingleTransaction tx).bind (fun fi =>
          (s.wac.processSingleTransaction tx).map (fun w =>
            ⟨fi, w, assocSet tx.ledgerId tx.id s.lastProcessedIds⟩)))
    ∧ (((last : ℤ) < (tx.id : ℤ) - 1) →
      updatePosition isFifo db s tx =
        rebuildLedgerCore isFifo db
          { s with lastProcessedIds := assocSet tx.ledgerId 0 s.lastProcessedIds }
          tx.ledgerId 0)
    ∧ (∀ rows : List RawRow,
      rows = sortStable dateIdLe (db.filter (fun r => r.ledgerId == tx.ledgerId)) →
      rows ≠ [] → isFifo = true →
      rebuildLedgerCore isFifo db
          { s with lastProcessedIds := assocSet tx.ledgerId 0 s.lastProcessedIds }
          tx.ledgerId 0
        = (s.fifo.addStockFromDf rows).map (fun fi =>
            (⟨fi, s.wac,
              assocSet tx.ledgerId ((rows.map RawRow.id).foldl max 0)
                s.lastProcessedIds⟩ : AnalyticsState))) := by
  refine ⟨?_, ?_, ?_⟩
  · intro heq
    simp only [updatePosition, ← hlast]
    rw [if_neg (by omega), if_pos (by omega : last < tx.id)]
  · intro hlt
    simp only [updatePosition, ← hlast]
    rw [if_pos hlt]
    simp [rebuildLedgerInventory]
  · intro rows hrows hne hf
    subst hf
    have hfilter : db.filter
        (fun r => r.ledgerId == tx.ledgerId && ((0 : ℕ) == 0 || decide (0 < r.id)))
        = db.filter (fun r => r.ledgerId == tx.ledgerId) := by
      apply List.filter_congr
      intro r _
      simp
    have hempty : rows.isEmpty = false := by
      cases h : rows with
      | nil => exact absurd h hne
      | cons a l => rfl
    simp only [rebuildLedgerCore, hfilter, ← hrows, hempty, Bool.false_eq_true, if_false,
      if_pos rfl]
    simp [assocSet_assocSet]

/-- C7 witness: the fast path at a concrete state with checkpoint 1 and id 2. -/
theorem c7_witness :
    updatePosition true [] c7FastState c7Tx =
      (c7FastState.fifo.processSingleTransaction c7Tx).bind (fun fi =>
        (c7FastState.wac.processSingleTransaction c7Tx).map (fun w =>
          ⟨fi, w, assocSet c7Tx.ledgerId c7Tx.id c7FastState.lastProcessedIds⟩)) :=
  (c7_amended_thm true [] c7FastState c7Tx 1
    (by norm_num [c7FastState, c7Tx, assocGet])).1 (by norm_num [c7Tx])

/-- C7 counterexample: a stale lot (batch id 99) sits in the FIFO engine while the checkpoint is 0 and transaction id 3 arrives; the forced full rebuild replays rows 1..3 and sets the checkpoint to 3, but the stale lot survives — the engine state was never cleared. -/
theorem c7_counterexample :
    (updatePosition true c7Db c7StaleState c7Tx3).map
      (fun st => ((getRecs st.fifo.inventory (0, 9)).any (fun r => r.batchId == 99),
        (assocGet 0 st.lastProcessedIds).getD 0))
    = Except.ok (true, 3) := by
  norm_num [c7Db, c7StaleState, c7Tx3, updatePosition, rebuildLedgerInventory,
    rebuildLedgerCore, dateIdLe, FIFOInventory.addStockFromDf, groupKeys,
    FIFOInventory.processGroups, FIFOInventory.processRows,
    FIFOInventory.processSingleTransaction, handleBuyTransaction,
    handleSellTransaction, coverShortPosition, coverLoop, removeStock,
    List.dedup, sortStable, insertSorted, getRecs, assocGet, assocSet, ensureKey,
    q2, rhu, Except.bind, Except.map]

/-- C8 (amended): a malformed transaction row in a batch replay raises the validation `ValueError` out of `add_stock_from_df`, aborting the whole batch: the call returns the parse error and rows after the malformed one are not processed. The claim as stated (the row is skipped and the replay continues) is false on the code. -/
theorem c8_amended_thm (s : FIFOInventory) (rows : List RawRow)
    (h : ∃ r ∈ rows, r.fields = none) :
    s.addStockFromDf rows = .error parseErrorMsg := by
  obtain ⟨r, hr, hnone⟩ := h
  unfold FIFOInventory.addStockFromDf
  exact processGroups_error rows (groupKeys rows) s ⟨r, hr, hnone, mem_groupKeys rows r hr⟩

/-- C8 witness: a batch holding one malformed row errors as a whole. -/
theorem c8_witness :
    FIFOInventory.addStockFromDf ⟨[], []⟩ [c8BadRow] = .error parseErrorMsg :=
  c8_amended_thm ⟨[], []⟩ [c8BadRow] ⟨c8BadRow, by simp, rfl⟩

/-- C8 counterexample: the batch [malformed, valid] errors instead of skipping the malformed row, while the valid row alone processes fine (total quantity 10). -/
theorem c8_counterexample :
    FIFOInventory.addStockFromDf ⟨[], []⟩ [c8BadRow, c8GoodRow]
      = .error parseErrorMsg ∧
    (FIFOInventory.addStockFromDf ⟨[], []⟩ [c8GoodRow]).map
      (fun s => s.getTotalQuantity 0 9 none) = .ok 10 := by
  constructor <;>
    norm_num [c8BadRow, c8GoodRow, FIFOInventory.addStockFromDf, groupKeys,
      FIFOInventory.processGroups, FIFOInventory.processRows,
      FIFOInventory.processSingleTransaction, handleBuyTransaction,
      handleSellTransaction, coverShortPosition, coverLoop, removeStock,
      List.dedup, sortStable, insertSorted, getRecs, assocGet, assocSet, ensureKey,
      q2, rhu, FIFOInventory.getTotalQuantity, Except.bind, Except.map]

/-- C9 (code-bug evidence): selling 30 short (id 1) and then buying 100 (id 2) leaves the FIFO total quantity at 0 while the WAC engine leaves 70 = -30 + 100. The FIFO cover loop misreads the covered short's `remaining_quantity` field (0 after a full cover) as the remaining BUY quantity, so the uncovered 70-share remainder never becomes a long lot and the two engines diverge. -/
theorem c9_code_bug_quantity_divergence :
    ((FIFOInventory.processSingleTransaction ⟨[], []⟩ c9SellRow).bind
      (·.processSingleTransaction c9BuyRow)).map
        (fun s => s.getTotalQuantity 0 9 none) = Except.ok 0 ∧
    ((WACInventory.processSingleTransaction ⟨[], [], false⟩ c9SellRow).bind
      (·.processSingleTransaction c9BuyRow)).map
        (fun s => s.getTotalQuantity 9 none) = Except.ok 70 := by
  constructor <;>
    norm_num [c9SellRow, c9BuyRow, FIFOInventory.processSingleTransaction,
      handleBuyTransaction, handleSellTransaction, coverShortPosition, coverLoop,
      coverFullShort, coverPartialShort, removeStock, removalLoop,
      createShortPosition, calculateRealizedPl, plLoop, mkPlDetail,
      getOriginalBatchInfo, getRecs, assocGet, assocSet, ensureKey, replaceFirst,
      eraseFirst, insertSorted, sortStable, q2, q4, rhu,
      FIFOInventory.getTotalQuantity, WACInventory.processSingleTransaction,
      wacHandleBuy, wacHandleSell, getAccts, WACInventory.getTotalQuantity,
      WACInventory.getTotalQuantity.wacTotalLoop, Except.bind, Except.map]

/-- C10: processing a transaction row whose signed quantity is exactly 0 leaves both the FIFO and the WAC engine completely unchanged: each returns `Except.ok` of the very state it was given; no record is created or mutated and no realized-P&L event is appended. -/
theorem c10_zero_quantity_is_noop (s : FIFOInventory) (w : WACInventory) (row : RawRow)
    (f : TxFields) (hf : row.fields = some f) (h0 : f.quantity = 0) :
    s.processSingleTransaction row = .ok s ∧ w.processSingleTransaction row = .ok w := by
  constructor
  · simp only [FIFOInventory.processSingleTransaction, hf]
    split
    · rfl
    · rw [h0]
      norm_num
  · simp only [WACInventory.processSingleTransaction, hf]
    rw [h0]
    norm_num

/-- C10 witness: the zero-quantity row is a no-op on concrete empty engines. -/
theorem c10_witness :
    FIFOInventory.processSingleTransaction ⟨[], []⟩ zeroQtyRow = .ok ⟨[], []⟩ ∧
    WACInventory.processSingleTransaction ⟨[], [], false⟩ zeroQtyRow = .ok ⟨[], [], false⟩ :=
  c10_zero_quantity_is_noop ⟨[], []⟩ ⟨[], [], false⟩ zeroQtyRow ⟨9, 0, 50, 5, 0, 1⟩ rfl rfl
